import Mathlib

/-!
# Verification of the Retrieval-Augmented Query Engine specification

This file gives a shallow embedding of the query engine described in the
repository's design documents (`spec` of the core: fragment embedding index,
conversation session store, context assembler, query orchestrator) together
with the frontend helper `parseOwnerFromGitUrl` from
`frontend/src/pages/ReposPage.tsx`, and proves the frozen claims about them.

The backend implementation (`backend/storage/vector_store.py`,
`backend/core/qa_service.py`, the conversation store and the MCP tools
`ask_repo` / `ask_repo_group`) is not part of the available sources; only its
documentation (`docs/llm-config.md`, the MCP tool description) and its
frontend callers are.  Those components are therefore modelled from the
specification, as flagged on each definition.

Cosine similarity is modelled exactly over `ℚ`.  Since the real-valued cosine
`d / (√‖q‖² · √‖v‖²)` is not rational, the stored score is the rational
quantity `d·|d| / (‖q‖²·‖v‖²) = cos·|cos|`, an order-isomorphic proxy: the map
`x ↦ x·|x|` is strictly monotone, so comparisons (and ties) of the proxy agree
exactly with comparisons of the true cosine, which is proved below
(`cosSim_le_iff`, `cosSim_eq_iff`).  The floating-point tie tolerance `1e-9`
of the documentation is modelled as exact equality of scores.
-/

namespace YogSothoth

/-- Message role in a conversation, per the data model (ConversationMessage). -/
inductive Role where
  | user : Role
  | assistant : Role
deriving DecidableEq

/-- Session scope: bound to one repository or to one group, per the data model
(ConversationSession). -/
inductive Scope where
  | singleRepo (repo_id : String) : Scope
  | group (group_id : String) : Scope
deriving DecidableEq

/-- Modelled from the spec: ConversationMessage — role, text content, and a
monotonically increasing sequence position within its session. -/
structure ConvMessage where
  role : Role
  text : String
  seq : Nat
deriving DecidableEq

/-- Modelled from the spec: ConversationSession — scope fixed at creation plus
the ordered sequence of messages. -/
structure Session where
  scope : Scope
  msgs : List ConvMessage
deriving DecidableEq

/-- The conversation store: an association list from session identifier to
session record (key-based CRUD, as the spec assumes of the storage engine). -/
abbrev ConvStore := List (String × Session)

/-- Error taxonomy of the spec (section 7). -/
inductive QAError where
  | invalidArgument : QAError
  | repoNotFound : QAError
  | groupNotFound : QAError
  | embeddingProviderError : QAError
  | completionProviderError : QAError
  | contextTooLarge : QAError
  | scopeMismatch : QAError
deriving DecidableEq

/-- Association-list lookup by string key. -/
def alookup {α : Type} (l : List (String × α)) (k : String) : Option α :=
  match l with
  | [] => none
  | (k', v) :: rest => if k' = k then some v else alookup rest k

/-- Association-list update-or-insert by string key. -/
def aset {α : Type} (l : List (String × α)) (k : String) (v : α) :
    List (String × α) :=
  match l with
  | [] => [(k, v)]
  | (k', v') :: rest =>
      if k' = k then (k', v) :: rest else (k', v') :: aset rest k v

/-- The stored messages of a session (empty for an unknown identifier). -/
def sessionMsgs (st : ConvStore) (sid : String) : List ConvMessage :=
  match alookup st sid with
  | none => []
  | some s => s.msgs

/-- The session identified by `sid`, if present, has scope `scope`. -/
def scopeOk (st : ConvStore) (sid : String) (scope : Scope) : Prop :=
  ∀ s, alookup st sid = some s → s.scope = scope

/-- Modelled from the spec: `append_turn(session_id, scope, scope_id, role,
text)` of the Conversation Session Store (4.2) — creates the session if
absent (first write fixes the scope), appends one message with the next
sequence position, fails with `ScopeMismatch` on a scope conflict.  The
Python conversation store is not among the sources. -/
def append_turn (st : ConvStore) (sid : String) (scope : Scope) (role : Role)
    (text : String) : Except QAError ConvStore :=
  match alookup st sid with
  | none => .ok (aset st sid ⟨scope, [⟨role, text, 0⟩]⟩)
  | some s =>
      if s.scope = scope then
        .ok (aset st sid ⟨s.scope, s.msgs ++ [⟨role, text, s.msgs.length⟩]⟩)
      else .error .scopeMismatch

/-- Modelled from the spec: `recent_turns(session_id, limit)` of the
Conversation Session Store (4.2) — up to `limit` most recent messages in
chronological order; empty sequence for an unknown session identifier. -/
def recent_turns (st : ConvStore) (sid : String) (limit : Nat) :
    List ConvMessage :=
  match alookup st sid with
  | none => []
  | some s => s.msgs.drop (s.msgs.length - limit)

/-! ## Vector similarity -/

/-- Dot product of two vectors (opaque numeric arrays of the spec, modelled
exactly over `ℚ`). -/
def dot (xs ys : List ℚ) : ℚ := (List.zipWith (· * ·) xs ys).sum

/-- Squared Euclidean norm. -/
def normSq (xs : List ℚ) : ℚ := dot xs xs

/-- The rational similarity score stored on references: `d·|d| / (‖q‖²·‖v‖²)`
where `d` is the dot product.  Equal to `cos·|cos|`, hence an exact
order-isomorphic proxy for the cosine similarity (see `cosSim_le_iff`). -/
def simKey (q v : List ℚ) : ℚ :=
  (dot q v * |dot q v|) / (normSq q * normSq v)

/-- The true cosine similarity, dot product over the product of norms
(spec 4.1). -/
noncomputable def cosSim (q v : List ℚ) : ℝ :=
  ((dot q v : ℚ) : ℝ) /
    (Real.sqrt ((normSq q : ℚ) : ℝ) * Real.sqrt ((normSq v : ℚ) : ℝ))

/-- A stored fragment embedding row: what the fragment store yields for a
repository set (spec section 6: fragment id, repository id, file path, line
range, vector) together with the fragment text used for prompt assembly. -/
structure Row where
  fragment_id : String
  repo_id : String
  file_path : String
  start_line : Nat
  end_line : Nat
  text : String
  vec : List ℚ
deriving DecidableEq

/-- A transient Reference record: repository identifier, file path, start and
end line, similarity score (spec data model). -/
structure Reference where
  repo_id : String
  file_path : String
  start_line : Nat
  end_line : Nat
  score : ℚ
deriving DecidableEq

/-- The deterministic identifier tie-break: repository identifier first, then
fragment identifier, ascending. -/
def idLE (a b : Row) : Prop :=
  a.repo_id < b.repo_id ∨ (a.repo_id = b.repo_id ∧ a.fragment_id ≤ b.fragment_id)

instance : DecidableRel idLE := fun a b => by
  unfold idLE; infer_instance

/-- Ranking relation used by retrieval: higher score first, ties broken by
`idLE` (spec 4.1). -/
def rowLE (q : List ℚ) (a b : Row) : Prop :=
  simKey q b.vec < simKey q a.vec ∨
    (simKey q a.vec = simKey q b.vec ∧ idLE a b)

instance (q : List ℚ) : DecidableRel (rowLE q) := fun a b => by
  unfold rowLE; infer_instance

/-- The candidate rows of a search: embeddings of the requested repositories,
excluding zero-norm (degenerate) vectors (spec 4.1). -/
def candidates (rows : List Row) (repo_ids : List String) : List Row :=
  rows.filter (fun r => decide (r.repo_id ∈ repo_ids) && decide (normSq r.vec ≠ 0))

/-- Rank candidate rows by descending score with the deterministic
tie-break. -/
def rankRows (q : List ℚ) (cands : List Row) : List Row :=
  List.insertionSort (rowLE q) cands

/-- Modelled from the spec: the row-level retrieval of
`VectorStore.search` (4.1) — rank all candidates and keep the best `k`.
The Python `backend/storage/vector_store.py` is not among the sources. -/
def retrieveRows (rows : List Row) (repo_ids : List String) (q : List ℚ)
    (k : Nat) : List Row :=
  (rankRows q (candidates rows repo_ids)).take k

/-- Reference-shaped tuple for a retrieved row (spec 4.1). -/
def toRef (q : List ℚ) (r : Row) : Reference :=
  ⟨r.repo_id, r.file_path, r.start_line, r.end_line, simKey q r.vec⟩

/-- Modelled from the spec: `search(repository_ids, query_text, top_k)` of the
Fragment Embedding Index (4.1), over an already-embedded query vector `q`.
A non-positive `top_k` fails with `InvalidArgument`; an empty repository set
or absent embeddings yield an empty sequence. -/
def search (rows : List Row) (repo_ids : List String) (q : List ℚ) (k : Nat) :
    Except QAError (List Reference) :=
  if 1 ≤ k then .ok ((retrieveRows rows repo_ids q k).map (toRef q))
  else .error .invalidArgument

/-- Modelled from the spec: group-mode retrieval (4.4 step 2–3) — up to `k`
fragments from each member repository independently, then one global re-sort
by descending score with the 4.1 tie-break. -/
def retrieveRowsGroup (rows : List Row) (members : List String) (q : List ℚ)
    (k : Nat) : List Row :=
  List.insertionSort (rowLE q)
    ((members.map (fun rid => retrieveRows rows [rid] q k)).flatten)

/-- The reference list of a single-repository answer. -/
def repoRefs (rows : List Row) (q : List ℚ) (rid : String) (k : Nat) :
    List Reference :=
  (retrieveRows rows [rid] q k).map (toRef q)

/-- The merged reference list of a group answer. -/
def groupRefs (rows : List Row) (q : List ℚ) (members : List String)
    (k : Nat) : List Reference :=
  (retrieveRowsGroup rows members q k).map (toRef q)

/-! ## Context assembly and orchestration -/

/-- Modelled from the spec: the bounded history replay depth used when
`link_history` is enabled ("最近若干条" — a fixed recent-window size, the
exact bound being unspecified in the documentation). -/
def historyLimit : Nat := 20

/-- One labeled fragment block of the prompt (owning repository, file path,
line range, text — spec 4.3). -/
def renderFragment (r : Row) : String :=
  "[" ++ r.repo_id ++ "] " ++ r.file_path ++ ":" ++ toString r.start_line ++
    "-" ++ toString r.end_line ++ "\n" ++ r.text ++ "\n"

/-- One prior conversation turn, tagged with its role (spec 4.3). -/
def renderMessage (m : ConvMessage) : String :=
  (match m.role with
    | .user => "user: "
    | .assistant => "assistant: ") ++ m.text ++ "\n"

/-- The deterministic rendering order of the Context Assembler (4.3):
header, fragment blocks in retrieval order, history oldest first, then the
question. -/
def renderPrompt (header : String) (frags : List Row)
    (history : List ConvMessage) (question : String) : String :=
  header ++ "\n" ++ String.join (frags.map renderFragment) ++
    String.join (history.map renderMessage) ++ question

/-- Total rendered size of a history window, in characters. -/
def histSize (history : List ConvMessage) : Nat :=
  (history.map (fun m => (renderMessage m).length)).sum

/-- The longest prefix of the retrieval-ordered fragment list whose rendered
blocks fit in `room` characters.  Since the list is ordered by descending
similarity and rendered sizes are nonnegative, this is exactly spec 4.3's
"drop the lowest-similarity fragments first, never truncating
mid-fragment". -/
def fitFrags (room : Nat) : List Row → List Row
  | [] => []
  | f :: rest =>
      if (renderFragment f).length ≤ room then
        f :: fitFrags (room - (renderFragment f).length) rest
      else []

/-- Drop history turns oldest-first until the window fits in `room`
characters, but never drop the most recent turn (spec 4.3). -/
def fitHistory (room : Nat) : List ConvMessage → List ConvMessage
  | [] => []
  | [m] => [m]
  | m :: rest =>
      if histSize (m :: rest) ≤ room then m :: rest else fitHistory room rest

/-- Modelled from the spec: the configured maximum total prompt size (a
character ceiling handed to the Context Assembler at construction); the
concrete value is not given in the documentation. -/
def promptBudget : Nat := 8000

/-- Modelled from the spec: `build_prompt(question, fragments, history,
repo_labels)` of the Context Assembler (4.3) — deterministic rendering with
a maximum size budget.  Fails with `ContextTooLarge` only if the question
alone, with zero fragments and zero history, exceeds the budget.  When the
budget is exceeded otherwise, the lowest-similarity fragments are dropped
first (whole fragments only); if even zero fragments exceed, history turns
are dropped oldest-first, never dropping the most recent turn or the
question. -/
def build_prompt (budget : Nat) (header : String) (frags : List Row)
    (history : List ConvMessage) (question : String) :
    Except QAError String :=
  if budget < question.length then .error .contextTooLarge
  else
    let base := header.length + 1 + question.length
    if base + histSize history ≤ budget then
      .ok (renderPrompt header
        (fitFrags (budget - (base + histSize history)) frags) history question)
    else
      .ok (renderPrompt header [] (fitHistory (budget - base) history)
        question)

/-- The history window used for a call: recent turns when `link_history` is
true and a session id was supplied, empty otherwise (spec 4.4 step 3). -/
def historyFor (st : ConvStore) (sid : Option String) (link : Bool) :
    List ConvMessage :=
  if link then
    match sid with
    | some s => recent_turns st s historyLimit
    | none => []
  else []

/-- Instruction header naming the target repository (spec 4.3). -/
def headerRepo (rid : String) : String :=
  "Answer the question about repository " ++ rid ++ "."

/-- Instruction header naming the target group (spec 4.3). -/
def headerGroup (gid : String) : String :=
  "Answer the question about repository group " ++ gid ++ "."

/-- The prompt assembly of the single-repository flow: `ContextTooLarge`
when even the question alone exceeds the budget (spec 4.3/4.4). -/
def repoPrompt (embed : String → List ℚ) (rows : List Row) (st : ConvStore)
    (rid question : String) (k : Nat) (sid : Option String) (link : Bool) :
    Except QAError String :=
  build_prompt promptBudget (headerRepo rid)
    (retrieveRows rows [rid] (embed question) k)
    (historyFor st sid link) question

/-- The prompt assembly of the group flow. -/
def groupPrompt (embed : String → List ℚ) (rows : List Row) (st : ConvStore)
    (gid : String) (members : List String) (question : String) (k : Nat)
    (sid : Option String) (link : Bool) : Except QAError String :=
  build_prompt promptBudget (headerGroup gid)
    (retrieveRowsGroup rows members (embed question) k)
    (historyFor st sid link) question

/-- Modelled from the spec: the completion-and-record tail shared by both
modes (4.4 step 5) — invoke the completion provider; on failure surface
`CompletionProviderError` with the store untouched; on success append the
question and the answer as two turns, only when `link_history` is true and a
session id was supplied. -/
def completeAndRecord (complete : String → Except Unit String)
    (st : ConvStore) (scope : Scope) (sid : Option String) (link : Bool)
    (question prompt : String) : Except QAError String × ConvStore :=
  match complete prompt with
  | .error _ => (.error .completionProviderError, st)
  | .ok ans =>
      if link then
        match sid with
        | some s =>
            match append_turn st s scope .user question with
            | .error e => (.error e, st)
            | .ok st1 =>
                match append_turn st1 s scope .assistant ans with
                | .error e => (.error e, st)
                | .ok st2 => (.ok ans, st2)
        | none => (.ok ans, st)
      else (.ok ans, st)

/-- The world state the orchestrator reads: registered repository ids, group
membership, stored embedding rows, and the conversation store (the only
mutable part). -/
structure World where
  repos : List String
  groups : List (String × List String)
  rows : List Row
  conv : ConvStore

/-- Single-repository answer shape (MCP tool description `ask_repo`). -/
structure RepoAnswer where
  repo_id : String
  question : String
  answer_text : String
  references : List Reference
  session_id : Option String
  link_history : Bool
deriving DecidableEq

/-- Group answer shape (MCP tool description `ask_repo_group`). -/
structure GroupAnswer where
  group_id : String
  question : String
  answer_text : String
  references : List Reference
  session_id : Option String
  link_history : Bool
deriving DecidableEq

/-- Modelled from the spec: the single-repository orchestrator
`answer_for_repo` / MCP `ask_repo` (4.4) — validate the repository, resolve
the retrieval budget (default 10, must be ≥ 1), retrieve, build the prompt,
call the completion provider, record history, return answer plus ordered
references.  The Python `backend/core/qa_service.py` and
`backend/api_mcp/server.py` are not among the sources. -/
def ask_repo (complete : String → Except Unit String)
    (embed : String → List ℚ) (w : World) (repo_id question : String)
    (top_k : Option Nat) (session_id : Option String) (link_history : Bool) :
    Except QAError RepoAnswer × ConvStore :=
  if repo_id ∈ w.repos then
    let k := top_k.getD 10
    if 1 ≤ k then
      match repoPrompt embed w.rows w.conv repo_id question k session_id
        link_history with
      | .error e => (.error e, w.conv)
      | .ok prompt =>
          match completeAndRecord complete w.conv (.singleRepo repo_id)
            session_id link_history question prompt with
          | (.error e, st) => (.error e, st)
          | (.ok ans, st) =>
              (.ok ⟨repo_id, question, ans,
                repoRefs w.rows (embed question) repo_id k, session_id,
                link_history⟩, st)
    else (.error .invalidArgument, w.conv)
  else (.error .repoNotFound, w.conv)

/-- Modelled from the spec: the group orchestrator `answer_for_group` / MCP
`ask_repo_group` (4.4) — validate the group, resolve the per-repo budget
(default 5, must be ≥ 1), retrieve per member and merge, build the prompt,
call the completion provider, record history under scope `group`, return
answer plus merged references. -/
def ask_repo_group (complete : String → Except Unit String)
    (embed : String → List ℚ) (w : World) (group_id question : String)
    (top_k_per_repo : Option Nat) (session_id : Option String)
    (link_history : Bool) : Except QAError GroupAnswer × ConvStore :=
  match alookup w.groups group_id with
  | none => (.error .groupNotFound, w.conv)
  | some members =>
      let k := top_k_per_repo.getD 5
      if 1 ≤ k then
        match groupPrompt embed w.rows w.conv group_id members question k
          session_id link_history with
        | .error e => (.error e, w.conv)
        | .ok prompt =>
            match completeAndRecord complete w.conv (.group group_id)
              session_id link_history question prompt with
            | (.error e, st) => (.error e, st)
            | (.ok ans, st) =>
                (.ok ⟨group_id, question, ans,
                  groupRefs w.rows (embed question) members k, session_id,
                  link_history⟩, st)
      else (.error .invalidArgument, w.conv)

/-! ## Frontend: `parseOwnerFromGitUrl` (ReposPage.tsx / RepoOutlinePage /
RepoChatPage) -/

/-- JavaScript `parts[0] || "unknown"`: the empty string is falsy. -/
def jsOrDefault (s fallback : String) : String :=
  if s = "" then fallback else s

/-- JS `pathname.replace` with the regex anchored slash: strip at most one
leading slash. -/
def stripLeadingSlash (s : String) : String :=
  match s.data with
  | [] => s
  | c :: rest => if c = '/' then String.mk rest else s

/-- JavaScript `String.prototype.split` with a one-character separator, on
the character list: splitting the empty string yields `[[]]` (JS yields
`[""]`), and separators at the edges produce empty segments, exactly as in
JS. -/
def splitOnChar (sep : Char) : List Char → List (List Char)
  | [] => [[]]
  | c :: rest =>
      match splitOnChar sep rest with
      | [] => [[]]
      | s :: ss => if c = sep then [] :: s :: ss else (c :: s) :: ss

/-- The first path segment of a pathname, as the TSX code computes it:
strip one leading slash, split on "/", take the first part (JS `split`
never yields an empty array, and neither does `splitOnChar`). -/
def firstSegment (pathname : String) : String :=
  String.mk ((splitOnChar '/' (stripLeadingSlash pathname).data).headD [])

/-- Embedding of `parseOwnerFromGitUrl` from `frontend/src/pages/ReposPage.tsx`
(identical copies in RepoOutlinePage/RepoChatPage).  The platform URL parser
(`new URL`, which throws on unparsable input, caught by the `try`/`catch`)
is abstracted as `p : String → Option String` returning the pathname. -/
def parseOwnerFromGitUrl (p : String → Option String) (url : String) :
    String :=
  match p url with
  | none => "unknown"
  | some pathname => jsOrDefault (firstSegment pathname) "unknown"

/-! ## Supporting lemmas: exact similarity scores -/

theorem normSq_nonneg (v : List ℚ) : 0 ≤ normSq v := by
  unfold normSq dot
  induction v with
  | nil => simp
  | cons x xs ih =>
      simp only [List.zipWith_cons_cons, List.sum_cons]
      exact add_nonneg (mul_self_nonneg x) ih

theorem mulAbs_lt_mulAbs {x y : ℝ} (h : x < y) : x * |x| < y * |y| := by
  rcases abs_cases x with ⟨hx, hx0⟩ | ⟨hx, hx0⟩ <;>
    rcases abs_cases y with ⟨hy, hy0⟩ | ⟨hy, hy0⟩ <;> nlinarith

theorem mulAbs_le_iff {x y : ℝ} : x * |x| ≤ y * |y| ↔ x ≤ y := by
  constructor
  · intro h
    by_contra hc
    push_neg at hc
    exact absurd h (not_le.mpr (mulAbs_lt_mulAbs hc))
  · intro h
    rcases eq_or_lt_of_le h with rfl | hlt
    · exact le_refl _
    · exact (mulAbs_lt_mulAbs hlt).le

theorem mulAbs_eq_iff {x y : ℝ} : x * |x| = y * |y| ↔ x = y := by
  constructor
  · intro h
    exact le_antisymm (mulAbs_le_iff.mp h.le) (mulAbs_le_iff.mp h.ge)
  · rintro rfl
    rfl

theorem cosSim_mulAbs (q v : List ℚ) (hq : normSq q ≠ 0) (hv : normSq v ≠ 0) :
    cosSim q v * |cosSim q v| = ((simKey q v : ℚ) : ℝ) := by
  have hq0 : (0 : ℝ) < ((normSq q : ℚ) : ℝ) := by
    have h1 : (0 : ℝ) ≤ ((normSq q : ℚ) : ℝ) := by exact_mod_cast normSq_nonneg q
    have h2 : ((normSq q : ℚ) : ℝ) ≠ 0 := by exact_mod_cast hq
    exact lt_of_le_of_ne h1 (Ne.symm h2)
  have hv0 : (0 : ℝ) < ((normSq v : ℚ) : ℝ) := by
    have h1 : (0 : ℝ) ≤ ((normSq v : ℚ) : ℝ) := by exact_mod_cast normSq_nonneg v
    have h2 : ((normSq v : ℚ) : ℝ) ≠ 0 := by exact_mod_cast hv
    exact lt_of_le_of_ne h1 (Ne.symm h2)
  have hs : (0 : ℝ) < Real.sqrt ((normSq q : ℚ) : ℝ) * Real.sqrt ((normSq v : ℚ) : ℝ) :=
    mul_pos (Real.sqrt_pos.mpr hq0) (Real.sqrt_pos.mpr hv0)
  have hss : Real.sqrt ((normSq q : ℚ) : ℝ) * Real.sqrt ((normSq v : ℚ) : ℝ) *
      (Real.sqrt ((normSq q : ℚ) : ℝ) * Real.sqrt ((normSq v : ℚ) : ℝ)) =
      ((normSq q : ℚ) : ℝ) * ((normSq v : ℚ) : ℝ) := by
    rw [mul_mul_mul_comm, Real.mul_self_sqrt hq0.le, Real.mul_self_sqrt hv0.le]
  rw [cosSim, abs_div, abs_of_pos hs, div_mul_div_comm, hss, simKey]
  push_cast
  ring

theorem cosSim_le_iff (q a b : List ℚ) (hq : normSq q ≠ 0)
    (ha : normSq a ≠ 0) (hb : normSq b ≠ 0) :
    cosSim q a ≤ cosSim q b ↔ simKey q a ≤ simKey q b := by
  rw [← mulAbs_le_iff, cosSim_mulAbs q a hq ha, cosSim_mulAbs q b hq hb]
  exact_mod_cast Iff.rfl

theorem cosSim_eq_iff (q a b : List ℚ) (hq : normSq q ≠ 0)
    (ha : normSq a ≠ 0) (hb : normSq b ≠ 0) :
    cosSim q a = cosSim q b ↔ simKey q a = simKey q b := by
  rw [← mulAbs_eq_iff, cosSim_mulAbs q a hq ha, cosSim_mulAbs q b hq hb]
  exact_mod_cast Iff.rfl

/-! ## Supporting lemmas: ranking -/

theorem idLE_total (a b : Row) : idLE a b ∨ idLE b a := by
  unfold idLE
  rcases lt_trichotomy a.repo_id b.repo_id with h | h | h
  · exact Or.inl (Or.inl h)
  · rcases le_total a.fragment_id b.fragment_id with h2 | h2
    · exact Or.inl (Or.inr ⟨h, h2⟩)
    · exact Or.inr (Or.inr ⟨h.symm, h2⟩)
  · exact Or.inr (Or.inl h)

theorem idLE_trans {a b c : Row} (hab : idLE a b) (hbc : idLE b c) :
    idLE a c := by
  unfold idLE at *
  rcases hab with h1 | ⟨h1, h1f⟩ <;> rcases hbc with h2 | ⟨h2, h2f⟩
  · exact Or.inl (h1.trans h2)
  · exact Or.inl (lt_of_lt_of_eq h1 h2)
  · exact Or.inl (lt_of_eq_of_lt h1 h2)
  · exact Or.inr ⟨h1.trans h2, h1f.trans h2f⟩

instance (q : List ℚ) : IsTotal Row (rowLE q) := by
  constructor
  intro a b
  unfold rowLE
  rcases lt_trichotomy (simKey q a.vec) (simKey q b.vec) with h | h | h
  · exact Or.inr (Or.inl h)
  · rcases idLE_total a b with h2 | h2
    · exact Or.inl (Or.inr ⟨h, h2⟩)
    · exact Or.inr (Or.inr ⟨h.symm, h2⟩)
  · exact Or.inl (Or.inl h)

instance (q : List ℚ) : IsTrans Row (rowLE q) := by
  constructor
  intro a b c hab hbc
  unfold rowLE at *
  rcases hab with h1 | ⟨h1, h1i⟩ <;> rcases hbc with h2 | ⟨h2, h2i⟩
  · exact Or.inl (h2.trans h1)
  · exact Or.inl (lt_of_eq_of_lt h2.symm h1)
  · exact Or.inl (lt_of_lt_of_eq h2 h1.symm)
  · exact Or.inr ⟨h1.trans h2, idLE_trans h1i h2i⟩

theorem rowLE_key_le {q : List ℚ} {a b : Row} (h : rowLE q a b) :
    simKey q b.vec ≤ simKey q a.vec := by
  rcases h with h | ⟨h, _⟩
  · exact h.le
  · exact h.ge

theorem rowLE_tie {q : List ℚ} {a b : Row} (h : rowLE q a b)
    (he : simKey q a.vec = simKey q b.vec) : idLE a b := by
  rcases h with h | ⟨_, hi⟩
  · exact absurd (he ▸ h) (lt_irrefl _)
  · exact hi

theorem mem_candidates {rows : List Row} {ids : List String} {x : Row} :
    x ∈ candidates rows ids ↔
      x ∈ rows ∧ x.repo_id ∈ ids ∧ normSq x.vec ≠ 0 := by
  simp [candidates, List.mem_filter]

theorem retrieveRows_sorted (rows : List Row) (ids : List String)
    (q : List ℚ) (k : Nat) :
    List.Pairwise (rowLE q) (retrieveRows rows ids q k) :=
  (List.sorted_insertionSort (rowLE q) (candidates rows ids)).sublist
    (List.take_sublist _ _)

theorem mem_retrieveRows {rows : List Row} {ids : List String} {q : List ℚ}
    {k : Nat} {x : Row} (hx : x ∈ retrieveRows rows ids q k) :
    x ∈ candidates rows ids :=
  (List.perm_insertionSort (rowLE q) (candidates rows ids)).subset
    (List.mem_of_mem_take hx)

theorem length_retrieveRows (rows : List Row) (ids : List String)
    (q : List ℚ) (k : Nat) :
    (retrieveRows rows ids q k).length = min k (candidates rows ids).length := by
  rw [retrieveRows, List.length_take, rankRows,
    (List.perm_insertionSort (rowLE q) (candidates rows ids)).length_eq]

theorem retrieveRows_subperm (rows : List Row) (ids : List String)
    (q : List ℚ) (k : Nat) :
    List.Subperm (retrieveRows rows ids q k) (candidates rows ids) :=
  ((List.take_sublist _ _).subperm).trans
    (List.perm_insertionSort (rowLE q) (candidates rows ids)).subperm

theorem retrieveRows_drop_le (rows : List Row) (ids : List String)
    (q : List ℚ) (k : Nat) :
    ∀ x ∈ retrieveRows rows ids q k,
      ∀ y ∈ (rankRows q (candidates rows ids)).drop k, rowLE q x y := by
  have hs := List.sorted_insertionSort (rowLE q) (candidates rows ids)
  rw [← List.take_append_drop k
    (List.insertionSort (rowLE q) (candidates rows ids))] at hs
  exact (List.pairwise_append.mp hs).2.2

/-! ## Supporting lemmas: conversation store -/

theorem alookup_aset_self {α : Type} (l : List (String × α)) (k : String)
    (v : α) : alookup (aset l k v) k = some v := by
  induction l with
  | nil => simp [aset, alookup]
  | cons hd tl ih =>
      obtain ⟨k', v'⟩ := hd
      by_cases h : k' = k
      · subst h
        simp [aset, alookup]
      · simp [aset, alookup, h, ih]

theorem sessionMsgs_aset_self (st : ConvStore) (sid : String) (s : Session) :
    sessionMsgs (aset st sid s) sid = s.msgs := by
  simp [sessionMsgs, alookup_aset_self]

theorem scopeOk_aset_self (st : ConvStore) (sid : String) (scope : Scope)
    (m : List ConvMessage) : scopeOk (aset st sid ⟨scope, m⟩) sid scope := by
  intro s hs
  rw [alookup_aset_self] at hs
  cases hs
  rfl

theorem append_turn_of_scopeOk (st : ConvStore) (sid : String) (scope : Scope)
    (role : Role) (text : String) (h : scopeOk st sid scope) :
    append_turn st sid scope role text =
      .ok (aset st sid ⟨scope, sessionMsgs st sid ++
        [⟨role, text, (sessionMsgs st sid).length⟩]⟩) := by
  unfold append_turn sessionMsgs
  cases hl : alookup st sid with
  | none => simp
  | some s =>
      have hsc := h s hl
      simp [hsc]

theorem append_two (st : ConvStore) (sid : String) (scope : Scope)
    (q a : String) (h : scopeOk st sid scope) :
    ∃ st1 st2,
      append_turn st sid scope .user q = .ok st1 ∧
      append_turn st1 sid scope .assistant a = .ok st2 ∧
      sessionMsgs st2 sid =
        sessionMsgs st sid ++
          [⟨.user, q, (sessionMsgs st sid).length⟩,
           ⟨.assistant, a, (sessionMsgs st sid).length + 1⟩] := by
  have h1 := append_turn_of_scopeOk st sid scope .user q h
  have hm1 : sessionMsgs (aset st sid ⟨scope, sessionMsgs st sid ++
      [⟨.user, q, (sessionMsgs st sid).length⟩]⟩) sid =
      sessionMsgs st sid ++ [⟨.user, q, (sessionMsgs st sid).length⟩] :=
    sessionMsgs_aset_self st sid _
  have h2 := append_turn_of_scopeOk
    (aset st sid ⟨scope, sessionMsgs st sid ++
      [⟨.user, q, (sessionMsgs st sid).length⟩]⟩) sid scope .assistant a
    (scopeOk_aset_self st sid scope _)
  rw [hm1] at h2
  refine ⟨_, _, h1, h2, ?_⟩
  rw [sessionMsgs_aset_self]
  simp

theorem completeAndRecord_err (complete : String → Except Unit String)
    (st : ConvStore) (scope : Scope) (sid : Option String) (link : Bool)
    (q prompt : String) (e : Unit) (hc : complete prompt = .error e) :
    completeAndRecord complete st scope sid link q prompt =
      (.error .completionProviderError, st) := by
  unfold completeAndRecord
  rw [hc]

theorem completeAndRecord_ok_nolink (complete : String → Except Unit String)
    (st : ConvStore) (scope : Scope) (sid : Option String)
    (q prompt ans : String) (hc : complete prompt = .ok ans) :
    completeAndRecord complete st scope sid false q prompt = (.ok ans, st) := by
  unfold completeAndRecord
  rw [hc]
  rfl

theorem completeAndRecord_ok_nosid (complete : String → Except Unit String)
    (st : ConvStore) (scope : Scope) (link : Bool) (q prompt ans : String)
    (hc : complete prompt = .ok ans) :
    completeAndRecord complete st scope none link q prompt = (.ok ans, st) := by
  unfold completeAndRecord
  rw [hc]
  cases link <;> rfl

theorem completeAndRecord_ok_linked (complete : String → Except Unit String)
    (st : ConvStore) (scope : Scope) (sid : String) (q prompt ans : String)
    (hc : complete prompt = .ok ans) (h : scopeOk st sid scope) :
    ∃ st2, completeAndRecord complete st scope (some sid) true q prompt =
        (.ok ans, st2) ∧
      sessionMsgs st2 sid =
        sessionMsgs st sid ++
          [⟨.user, q, (sessionMsgs st sid).length⟩,
           ⟨.assistant, ans, (sessionMsgs st sid).length + 1⟩] := by
  obtain ⟨st1, st2, h1, h2, h3⟩ := append_two st sid scope q ans h
  refine ⟨st2, ?_, h3⟩
  unfold completeAndRecord
  rw [hc]
  simp [h1, h2]

theorem completeAndRecord_snd_nolink (complete : String → Except Unit String)
    (st : ConvStore) (scope : Scope) (sid : Option String)
    (q prompt : String) :
    (completeAndRecord complete st scope sid false q prompt).2 = st := by
  unfold completeAndRecord
  cases hc : complete prompt <;> simp

/-! ## Claim theorems -/

/-- C1: over a candidate set containing at least one nonzero-norm vector,
`search` succeeds and returns exactly the `top_k` highest cosine-similarity
fragments: the selected rows are drawn from the candidates, there are
`min top_k (number of candidates)` of them, every dropped candidate scores no
higher than every selected one, the sequence is ordered by non-increasing
cosine similarity (equivalently non-increasing stored score), and candidates
whose scores are equal are ordered by repository identifier then fragment
identifier ascending (the float tolerance 1e-9 is modelled as exact
equality). -/
theorem search_returns_topk (rows : List Row) (repo_ids : List String)
    (q : List ℚ) (k : Nat) (hk : 1 ≤ k) (hq : normSq q ≠ 0)
    (_hnz : candidates rows repo_ids ≠ []) :
    ∃ sel : List Row,
      search rows repo_ids q k = .ok (sel.map (toRef q)) ∧
      sel.length = min k (candidates rows repo_ids).length ∧
      List.Subperm sel (candidates rows repo_ids) ∧
      List.Pairwise (fun a b =>
        cosSim q b.vec ≤ cosSim q a.vec ∧
          (cosSim q a.vec = cosSim q b.vec → idLE a b)) sel ∧
      List.Pairwise (fun a b => b.score ≤ a.score) (sel.map (toRef q)) ∧
      (∀ c ∈ candidates rows repo_ids, c ∉ sel →
        ∀ x ∈ sel, cosSim q c.vec ≤ cosSim q x.vec) := by
  refine ⟨retrieveRows rows repo_ids q k, ?_,
    length_retrieveRows rows repo_ids q k,
    retrieveRows_subperm rows repo_ids q k, ?_, ?_, ?_⟩
  · simp [search, hk]
  · refine (retrieveRows_sorted rows repo_ids q k).imp_of_mem ?_
    intro a b ha hb hab
    have hca := mem_candidates.mp (mem_retrieveRows ha)
    have hcb := mem_candidates.mp (mem_retrieveRows hb)
    constructor
    · exact (cosSim_le_iff q b.vec a.vec hq hcb.2.2 hca.2.2).mpr
        (rowLE_key_le hab)
    · intro he
      exact rowLE_tie hab
        ((cosSim_eq_iff q a.vec b.vec hq hca.2.2 hcb.2.2).mp he)
  · rw [List.pairwise_map]
    exact (retrieveRows_sorted rows repo_ids q k).imp
      (fun h => rowLE_key_le h)
  · intro c hc hcnot x hx
    have hcs : c ∈ rankRows q (candidates rows repo_ids) :=
      (List.perm_insertionSort (rowLE q) (candidates rows repo_ids)).mem_iff.mpr hc
    rw [← List.take_append_drop k (rankRows q (candidates rows repo_ids)),
      List.mem_append] at hcs
    rcases hcs with h | h
    · exact absurd h hcnot
    · have hxc := mem_candidates.mp (mem_retrieveRows hx)
      have hcc := mem_candidates.mp hc
      exact (cosSim_le_iff q c.vec x.vec hq hcc.2.2 hxc.2.2).mpr
        (rowLE_key_le (retrieveRows_drop_le rows repo_ids q k x hx c h))

/-- A concrete embedding row used by witnesses. -/
def wRow1 : Row := ⟨"f1", "r", "a.py", 1, 2, "text-a", [1]⟩

theorem search_returns_topk_witness :
    1 ≤ 1 ∧ normSq [(1 : ℚ)] ≠ 0 ∧ candidates [wRow1] ["r"] ≠ [] ∧
      (∃ sel : List Row,
        search [wRow1] ["r"] [(1 : ℚ)] 1 = .ok (sel.map (toRef [(1 : ℚ)])) ∧
        sel.length = min 1 (candidates [wRow1] ["r"]).length ∧
        List.Subperm sel (candidates [wRow1] ["r"]) ∧
        List.Pairwise (fun a b =>
          cosSim [(1 : ℚ)] b.vec ≤ cosSim [(1 : ℚ)] a.vec ∧
            (cosSim [(1 : ℚ)] a.vec = cosSim [(1 : ℚ)] b.vec → idLE a b)) sel ∧
        List.Pairwise (fun a b => b.score ≤ a.score)
          (sel.map (toRef [(1 : ℚ)])) ∧
        (∀ c ∈ candidates [wRow1] ["r"], c ∉ sel →
          ∀ x ∈ sel, cosSim [(1 : ℚ)] c.vec ≤ cosSim [(1 : ℚ)] x.vec)) :=
  ⟨by decide, by norm_num [normSq, dot],
    by norm_num [candidates, wRow1, normSq, dot, List.filter],
    search_returns_topk [wRow1] ["r"] [(1 : ℚ)] 1 (by decide)
      (by norm_num [normSq, dot])
      (by norm_num [candidates, wRow1, normSq, dot, List.filter])⟩

/-- Every candidate restricted to a single repository belongs to it. -/
theorem mem_candidates_single {rows : List Row} {rid : String} {x : Row}
    (hx : x ∈ candidates rows [rid]) : x.repo_id = rid := by
  have h := (mem_candidates.mp hx).2.1
  simpa using h

theorem countP_retrieveRows_self (rows : List Row) (rid : String)
    (q : List ℚ) (k : Nat) :
    (retrieveRows rows [rid] q k).countP (fun x => decide (x.repo_id = rid)) =
      min k (candidates rows [rid]).length := by
  rw [← length_retrieveRows rows [rid] q k]
  exact List.countP_eq_length.mpr (fun a ha => by
    simpa using mem_candidates_single (mem_retrieveRows ha))

theorem countP_retrieveRows_other (rows : List Row) (rid r : String)
    (q : List ℚ) (k : Nat) (h : rid ≠ r) :
    (retrieveRows rows [rid] q k).countP (fun x => decide (x.repo_id = r)) =
      0 :=
  List.countP_eq_zero.mpr (fun a ha => by
    simp [mem_candidates_single (mem_retrieveRows ha), h])

theorem countP_group_flatten (rows : List Row) (members : List String)
    (q : List ℚ) (k : Nat) (r : String) (hnd : members.Nodup)
    (hr : r ∈ members) :
    ((members.map (fun rid => retrieveRows rows [rid] q k)).flatten).countP
        (fun x => decide (x.repo_id = r)) =
      min k (candidates rows [r]).length := by
  induction members with
  | nil => cases hr
  | cons a rest ih =>
      rw [List.map_cons, List.flatten_cons, List.countP_append]
      rcases List.mem_cons.mp hr with rfl | hr2
      · rw [countP_retrieveRows_self, List.countP_flatten, List.map_map]
        have hz : ∀ x ∈ rest.map ((fun l => List.countP
            (fun y => decide (y.repo_id = r)) l) ∘
            (fun rid => retrieveRows rows [rid] q k)), x = 0 := by
          intro x hx
          obtain ⟨rid, hrid, rfl⟩ := List.mem_map.mp hx
          have hne : rid ≠ r := by
            rintro rfl
            exact (List.nodup_cons.mp hnd).1 hrid
          exact countP_retrieveRows_other rows rid r q k hne
        rw [List.sum_eq_zero hz, Nat.add_zero]
      · have ha : a ≠ r := by
          rintro rfl
          exact (List.nodup_cons.mp hnd).1 hr2
        rw [countP_retrieveRows_other rows a r q k ha,
          ih (List.nodup_cons.mp hnd).2 hr2, Nat.zero_add]

/-- C2: in group mode, retrieval takes up to `top_k_per_repo` fragments from
each member repository independently before a single global re-sort: for any
member repository `r` of a duplicate-free member list, the merged reference
list contains exactly `min top_k_per_repo (number of candidates of r)`
references from `r` — regardless of the other repositories' scores — and the
merged list is ordered by non-increasing score.  In particular (witness),
with repository A holding 3 fragments that all outscore repository B's 2
fragments and `top_k_per_repo = 2`, B still contributes both of its
fragments. -/
theorem group_retrieval_fairness (rows : List Row) (members : List String)
    (q : List ℚ) (k : Nat) (r : String) (hnd : members.Nodup)
    (hr : r ∈ members) :
    (groupRefs rows q members k).countP (fun x => decide (x.repo_id = r)) =
      min k (candidates rows [r]).length ∧
    List.Pairwise (fun a b => b.score ≤ a.score)
      (groupRefs rows q members k) := by
  constructor
  · rw [groupRefs, List.countP_map, retrieveRowsGroup,
      (List.perm_insertionSort (rowLE q) _).countP_eq]
    exact countP_group_flatten rows members q k r hnd hr
  · rw [groupRefs, List.pairwise_map]
    exact (List.sorted_insertionSort (rowLE q) _).imp
      (fun h => rowLE_key_le h)

/-- Concrete rows for the group fairness witness: repository A holds three
fragments with cosine similarity 1 to the query `[1]`, repository B holds two
fragments with a strictly smaller similarity. -/
def wRowsAB : List Row :=
  [⟨"a1", "A", "a.py", 1, 2, "ta1", [1]⟩,
   ⟨"a2", "A", "a.py", 3, 4, "ta2", [1]⟩,
   ⟨"a3", "A", "a.py", 5, 6, "ta3", [1]⟩,
   ⟨"b1", "B", "b.py", 1, 2, "tb1", [1, 1]⟩,
   ⟨"b2", "B", "b.py", 3, 4, "tb2", [1, 1]⟩]

theorem group_retrieval_fairness_witness :
    (["A", "B"] : List String).Nodup ∧ "B" ∈ (["A", "B"] : List String) ∧
      (groupRefs wRowsAB [(1 : ℚ)] ["A", "B"] 2).countP
          (fun x => decide (x.repo_id = "B")) =
        min 2 (candidates wRowsAB ["B"]).length ∧
      List.Pairwise (fun a b => b.score ≤ a.score)
        (groupRefs wRowsAB [(1 : ℚ)] ["A", "B"] 2) :=
  ⟨by decide, by decide,
    (group_retrieval_fairness wRowsAB ["A", "B"] [(1 : ℚ)] 2 "B"
      (by decide) (by decide)).1,
    (group_retrieval_fairness wRowsAB ["A", "B"] [(1 : ℚ)] 2 "B"
      (by decide) (by decide)).2⟩

/-- C6: for every query vector and `top_k ≥ 1`, `search` over an empty
repository list, or over repository identifiers for which no embedding rows
are stored, returns an empty sequence and no error. -/
theorem search_empty_ok (rows : List Row) (repo_ids : List String)
    (q : List ℚ) (k : Nat) (hk : 1 ≤ k)
    (h : repo_ids = [] ∨ ∀ r ∈ rows, r.repo_id ∉ repo_ids) :
    search rows repo_ids q k = .ok [] := by
  have hc : candidates rows repo_ids = [] := by
    unfold candidates
    rw [List.filter_eq_nil_iff]
    intro x hx
    simp only [Bool.and_eq_true, decide_eq_true_eq, not_and]
    intro hmem
    rcases h with rfl | h
    · simp at hmem
    · exact absurd hmem (h x hx)
  simp [search, hk, retrieveRows, rankRows, hc]

/-- The append sequence of the spec's round-trip property: user turn `u1`,
assistant turn `a1`, user turn `u2`, assistant turn `a2`, all on one
session. -/
def appendFour (st0 : ConvStore) (sid : String) (scope : Scope)
    (u1 a1 u2 a2 : String) : Except QAError ConvStore :=
  match append_turn st0 sid scope .user u1 with
  | .error e => .error e
  | .ok s1 =>
      match append_turn s1 sid scope .assistant a1 with
      | .error e => .error e
      | .ok s2 =>
          match append_turn s2 sid scope .user u2 with
          | .error e => .error e
          | .ok s3 =>
              match append_turn s3 sid scope .assistant a2 with
              | .error e => .error e
              | .ok s4 => .ok s4

/-- C5: for every fresh session, appending the turns `[u1, a1, u2, a2]` via
`append_turn` succeeds, `recent_turns` with limit 4 returns exactly those
four messages oldest-first, `recent_turns` with limit 2 returns exactly the
last pair, and `recent_turns` on any identifier never written returns an
empty sequence rather than an error. -/
theorem session_roundtrip (st0 : ConvStore) (sid : String) (scope : Scope)
    (u1 a1 u2 a2 : String) (h0 : alookup st0 sid = none) :
    (∃ st4, appendFour st0 sid scope u1 a1 u2 a2 = .ok st4 ∧
      recent_turns st4 sid 4 =
        [⟨.user, u1, 0⟩, ⟨.assistant, a1, 1⟩, ⟨.user, u2, 2⟩,
         ⟨.assistant, a2, 3⟩] ∧
      recent_turns st4 sid 2 = [⟨.user, u2, 2⟩, ⟨.assistant, a2, 3⟩]) ∧
    (∀ sid2 lim, alookup st0 sid2 = none → recent_turns st0 sid2 lim = []) := by
  constructor
  · have hsc0 : scopeOk st0 sid scope := by
      intro s hs
      rw [h0] at hs
      cases hs
    have hm0 : sessionMsgs st0 sid = [] := by
      unfold sessionMsgs
      rw [h0]
    have e1 : append_turn st0 sid scope .user u1 =
        .ok (aset st0 sid ⟨scope, [⟨.user, u1, 0⟩]⟩) := by
      rw [append_turn_of_scopeOk st0 sid scope .user u1 hsc0, hm0]
      simp
    have e2 : append_turn (aset st0 sid ⟨scope, [⟨.user, u1, 0⟩]⟩) sid scope
        .assistant a1 =
        .ok (aset (aset st0 sid ⟨scope, [⟨.user, u1, 0⟩]⟩) sid
          ⟨scope, [⟨.user, u1, 0⟩, ⟨.assistant, a1, 1⟩]⟩) := by
      rw [append_turn_of_scopeOk _ sid scope .assistant a1
        (scopeOk_aset_self st0 sid scope _), sessionMsgs_aset_self]
      simp
    have e3 : append_turn (aset (aset st0 sid ⟨scope, [⟨.user, u1, 0⟩]⟩) sid
        ⟨scope, [⟨.user, u1, 0⟩, ⟨.assistant, a1, 1⟩]⟩) sid scope .user u2 =
        .ok (aset (aset (aset st0 sid ⟨scope, [⟨.user, u1, 0⟩]⟩) sid
          ⟨scope, [⟨.user, u1, 0⟩, ⟨.assistant, a1, 1⟩]⟩) sid
          ⟨scope, [⟨.user, u1, 0⟩, ⟨.assistant, a1, 1⟩, ⟨.user, u2, 2⟩]⟩) := by
      rw [append_turn_of_scopeOk _ sid scope .user u2
        (scopeOk_aset_self _ sid scope _), sessionMsgs_aset_self]
      simp
    have e4 : append_turn (aset (aset (aset st0 sid
        ⟨scope, [⟨.user, u1, 0⟩]⟩) sid
        ⟨scope, [⟨.user, u1, 0⟩, ⟨.assistant, a1, 1⟩]⟩) sid
        ⟨scope, [⟨.user, u1, 0⟩, ⟨.assistant, a1, 1⟩, ⟨.user, u2, 2⟩]⟩) sid
        scope .assistant a2 =
        .ok (aset (aset (aset (aset st0 sid ⟨scope, [⟨.user, u1, 0⟩]⟩) sid
          ⟨scope, [⟨.user, u1, 0⟩, ⟨.assistant, a1, 1⟩]⟩) sid
          ⟨scope, [⟨.user, u1, 0⟩, ⟨.assistant, a1, 1⟩, ⟨.user, u2, 2⟩]⟩) sid
          ⟨scope, [⟨.user, u1, 0⟩, ⟨.assistant, a1, 1⟩, ⟨.user, u2, 2⟩,
            ⟨.assistant, a2, 3⟩]⟩) := by
      rw [append_turn_of_scopeOk _ sid scope .assistant a2
        (scopeOk_aset_self _ sid scope _), sessionMsgs_aset_self]
      simp
    refine ⟨aset (aset (aset (aset st0 sid ⟨scope, [⟨.user, u1, 0⟩]⟩) sid
      ⟨scope, [⟨.user, u1, 0⟩, ⟨.assistant, a1, 1⟩]⟩) sid
      ⟨scope, [⟨.user, u1, 0⟩, ⟨.assistant, a1, 1⟩, ⟨.user, u2, 2⟩]⟩) sid
      ⟨scope, [⟨.user, u1, 0⟩, ⟨.assistant, a1, 1⟩, ⟨.user, u2, 2⟩,
        ⟨.assistant, a2, 3⟩]⟩, ?_, ?_, ?_⟩
    · simp only [appendFour, e1, e2, e3, e4]
    · unfold recent_turns
      rw [alookup_aset_self]
      simp
    · unfold recent_turns
      rw [alookup_aset_self]
      simp
  · intro sid2 lim h
    unfold recent_turns
    rw [h]

theorem session_roundtrip_witness :
    alookup ([] : ConvStore) "s" = none ∧
    appendFour [] "s" (.singleRepo "r") "q1" "ans1" "q2" "ans2" =
      .ok [("s", ⟨.singleRepo "r",
        [⟨.user, "q1", 0⟩, ⟨.assistant, "ans1", 1⟩, ⟨.user, "q2", 2⟩,
         ⟨.assistant, "ans2", 3⟩]⟩)] ∧
    recent_turns [("s", ⟨.singleRepo "r",
        [⟨.user, "q1", 0⟩, ⟨.assistant, "ans1", 1⟩, ⟨.user, "q2", 2⟩,
         ⟨.assistant, "ans2", 3⟩]⟩)] "s" 4 =
      [⟨.user, "q1", 0⟩, ⟨.assistant, "ans1", 1⟩, ⟨.user, "q2", 2⟩,
       ⟨.assistant, "ans2", 3⟩] ∧
    recent_turns [("s", ⟨.singleRepo "r",
        [⟨.user, "q1", 0⟩, ⟨.assistant, "ans1", 1⟩, ⟨.user, "q2", 2⟩,
         ⟨.assistant, "ans2", 3⟩]⟩)] "s" 2 =
      [⟨.user, "q2", 2⟩, ⟨.assistant, "ans2", 3⟩] := by
  obtain ⟨⟨st4, h1, h2, h3⟩, _⟩ :=
    session_roundtrip [] "s" (.singleRepo "r") "q1" "ans1" "q2" "ans2" rfl
  have he : appendFour [] "s" (.singleRepo "r") "q1" "ans1" "q2" "ans2" =
      .ok [("s", ⟨.singleRepo "r",
        [⟨.user, "q1", 0⟩, ⟨.assistant, "ans1", 1⟩, ⟨.user, "q2", 2⟩,
         ⟨.assistant, "ans2", 3⟩]⟩)] := by rfl
  have hst : st4 = [("s", ⟨.singleRepo "r",
      [⟨.user, "q1", 0⟩, ⟨.assistant, "ans1", 1⟩, ⟨.user, "q2", 2⟩,
       ⟨.assistant, "ans2", 3⟩]⟩)] := by
    rw [he] at h1
    exact (Except.ok.inj h1.symm)
  rw [hst] at h2 h3
  exact ⟨rfl, he, h2, h3⟩

theorem search_empty_ok_witness :
    (1 ≤ 2 ∧ search [wRow1] [] [(1 : ℚ)] 2 = .ok []) ∧
      (1 ≤ 3 ∧ search [wRow1] ["other"] [(1 : ℚ)] 3 = .ok []) :=
  ⟨⟨by decide, search_empty_ok [wRow1] [] [(1 : ℚ)] 2 (by decide)
      (Or.inl rfl)⟩,
    ⟨by decide, search_empty_ok [wRow1] ["other"] [(1 : ℚ)] 3 (by decide)
      (Or.inr (by decide))⟩⟩

/-- C9: a call with `link_history = false` leaves the conversation store —
in particular the stored turns of any supplied session identifier — exactly
as it was, in both modes, on success and on every error path. -/
theorem no_history_mutation (complete : String → Except Unit String)
    (embed : String → List ℚ) (w : World) (rid gid question : String)
    (k1 k2 : Option Nat) (sid : Option String) :
    (ask_repo complete embed w rid question k1 sid false).2 = w.conv ∧
    (ask_repo_group complete embed w gid question k2 sid false).2 = w.conv := by
  constructor
  · unfold ask_repo
    by_cases h1 : rid ∈ w.repos
    · simp only [if_pos h1]
      by_cases h2 : 1 ≤ k1.getD 10
      · simp only [if_pos h2]
        split
        next e heq => rfl
        next prompt heq =>
          have hs := completeAndRecord_snd_nolink complete w.conv
            (.singleRepo rid) sid question prompt
          split
          next e2 st heq2 =>
            rw [heq2] at hs
            simpa using hs
          next ans st heq2 =>
            rw [heq2] at hs
            simpa using hs
      · simp only [if_neg h2]
    · simp only [if_neg h1]
  · unfold ask_repo_group
    cases hg : alookup w.groups gid with
    | none => rfl
    | some members =>
        by_cases h2 : 1 ≤ k2.getD 5
        · simp only [if_pos h2]
          split
          next e heq => rfl
          next prompt heq =>
            have hs := completeAndRecord_snd_nolink complete w.conv
              (.group gid) sid question prompt
            split
            next e2 st heq2 =>
              rw [heq2] at hs
              simpa using hs
            next ans st heq2 =>
              rw [heq2] at hs
              simpa using hs
        · simp only [if_neg h2]

/-- World fixture for witnesses: one repository "r", one group "g"
containing it, no stored embeddings, empty conversation store. -/
def wWorld : World := ⟨["r"], [("g", ["r"])], [], []⟩

/-- Completion provider fixture that always succeeds with "ans". -/
def wCompleteOk : String → Except Unit String := fun _ => .ok "ans"

/-- Completion provider fixture that always fails. -/
def wCompleteErr : String → Except Unit String := fun _ => .error ()

/-- Embedding provider fixture. -/
def wEmbed : String → List ℚ := fun _ => [1]

/-- C8: when the caller omits the retrieval budget, the single-repo ask uses
`top_k = 10` and the group ask uses `top_k_per_repo = 5`; in both modes a
budget below 1 is rejected with `InvalidArgument` (budgets are natural
numbers in the model, so 0 is the only non-positive value). -/
theorem default_budgets (complete : String → Except Unit String)
    (embed : String → List ℚ) (w : World) (rid gid question : String)
    (members : List String) (sid : Option String) (link : Bool)
    (hr : rid ∈ w.repos) (hg : alookup w.groups gid = some members) :
    ask_repo complete embed w rid question none sid link =
      ask_repo complete embed w rid question (some 10) sid link ∧
    ask_repo_group complete embed w gid question none sid link =
      ask_repo_group complete embed w gid question (some 5) sid link ∧
    ask_repo complete embed w rid question (some 0) sid link =
      (.error .invalidArgument, w.conv) ∧
    ask_repo_group complete embed w gid question (some 0) sid link =
      (.error .invalidArgument, w.conv) := by
  refine ⟨rfl, rfl, ?_, ?_⟩
  · unfold ask_repo
    rw [if_pos hr]
    simp
  · unfold ask_repo_group
    rw [hg]
    simp

theorem default_budgets_witness :
    "r" ∈ wWorld.repos ∧ alookup wWorld.groups "g" = some ["r"] ∧
    ask_repo wCompleteOk wEmbed wWorld "r" "q" (some 0) none true =
      (.error .invalidArgument, wWorld.conv) ∧
    ask_repo_group wCompleteOk wEmbed wWorld "g" "q" (some 0) none true =
      (.error .invalidArgument, wWorld.conv) :=
  ⟨by decide, rfl,
    (default_budgets wCompleteOk wEmbed wWorld "r" "g" "q" ["r"] none true
      (by decide) rfl).2.2.1,
    (default_budgets wCompleteOk wEmbed wWorld "r" "g" "q" ["r"] none true
      (by decide) rfl).2.2.2⟩

/-- A question longer than the budget makes prompt assembly fail with
`ContextTooLarge` (spec 4.3). -/
theorem build_prompt_question_too_large (budget : Nat) (header : String)
    (frags : List Row) (history : List ConvMessage) (question : String)
    (h : budget < question.length) :
    build_prompt budget header frags history question =
      .error .contextTooLarge := by
  unfold build_prompt
  rw [if_pos h]

/-- Per spec 4.4's failure policy, a `ContextTooLarge` assembly failure
propagates from `ask_repo` as a typed error, without a completion-provider
call and without touching the conversation store. -/
theorem ask_repo_surfaces_context_too_large
    (complete : String → Except Unit String) (embed : String → List ℚ)
    (w : World) (rid question : String) (k1 : Option Nat)
    (sid : Option String) (link : Bool)
    (hr : rid ∈ w.repos) (hk : 1 ≤ k1.getD 10)
    (hbig : promptBudget < question.length) :
    ask_repo complete embed w rid question k1 sid link =
      (.error .contextTooLarge, w.conv) := by
  unfold ask_repo
  simp only [if_pos hr, if_pos hk]
  have hp : repoPrompt embed w.rows w.conv rid question (k1.getD 10) sid
      link = .error .contextTooLarge := by
    unfold repoPrompt
    exact build_prompt_question_too_large _ _ _ _ _ hbig
  simp only [hp]

/-- C4: a single-repository query that passes validation (repository
registered, budget ≥ 1, compatible session scope), retrieval, and prompt
assembly invokes the completion provider with the built prompt and returns
that provider's answer text together with the ordered reference list.  The
assembly-success premise reflects spec 4.4's failure policy: a
`ContextTooLarge` assembly failure propagates without a provider call. -/
theorem ask_repo_returns_answer (complete : String → Except Unit String)
    (embed : String → List ℚ) (w : World) (rid question : String)
    (k1 : Option Nat) (sid : Option String) (link : Bool)
    (prompt ans : String)
    (hr : rid ∈ w.repos) (hk : 1 ≤ k1.getD 10)
    (hscope : ∀ s, sid = some s → link = true →
      scopeOk w.conv s (.singleRepo rid))
    (hprompt : repoPrompt embed w.rows w.conv rid question (k1.getD 10)
      sid link = .ok prompt)
    (hans : complete prompt = .ok ans) :
    ∃ st, ask_repo complete embed w rid question k1 sid link =
      (.ok ⟨rid, question, ans,
        repoRefs w.rows (embed question) rid (k1.getD 10), sid, link⟩, st) := by
  unfold ask_repo
  simp only [if_pos hr, if_pos hk, hprompt]
  cases link with
  | false =>
      rw [completeAndRecord_ok_nolink complete w.conv (.singleRepo rid) sid
        question prompt ans hans]
      exact ⟨w.conv, rfl⟩
  | true =>
      cases sid with
      | none =>
          rw [completeAndRecord_ok_nosid complete w.conv (.singleRepo rid)
            true question prompt ans hans]
          exact ⟨w.conv, rfl⟩
      | some s =>
          obtain ⟨st2, hcr, _⟩ := completeAndRecord_ok_linked complete w.conv
            (.singleRepo rid) s question prompt ans hans (hscope s rfl rfl)
          rw [hcr]
          exact ⟨st2, rfl⟩

theorem ask_repo_returns_answer_witness :
    "r" ∈ wWorld.repos ∧
    repoPrompt wEmbed wWorld.rows wWorld.conv "r" "q" 10 none true =
      .ok (renderPrompt (headerRepo "r") [] [] "q") ∧
    wCompleteOk (renderPrompt (headerRepo "r") [] [] "q") = .ok "ans" ∧
    (ask_repo wCompleteOk wEmbed wWorld "r" "q" none none true).1 =
      .ok ⟨"r", "q", "ans", repoRefs wWorld.rows (wEmbed "q") "r" 10, none,
        true⟩ := by
  refine ⟨by decide, rfl, rfl, ?_⟩
  obtain ⟨st, h⟩ := ask_repo_returns_answer wCompleteOk wEmbed wWorld "r" "q"
    none none true (renderPrompt (headerRepo "r") [] [] "q") "ans"
    (by decide) (by decide) (fun s hs _ => nomatch hs) rfl rfl
  rw [h]
  rfl

/-- C3: in either mode, with `link_history = true` and a session id
supplied, for any call that passes validation and prompt assembly and whose
session — possibly already holding earlier turns — carries the matching
scope if it exists: when the completion provider succeeds, exactly two
turns, the user question then the assistant answer, are appended to that
session after its existing turns; when the provider fails, the call
surfaces `CompletionProviderError` and the conversation store is returned
unchanged (no partial history write). -/
theorem history_atomicity (complete : String → Except Unit String)
    (embed : String → List ℚ) (w : World) (question sid : String)
    (rid gid : String) (k1 k2 : Option Nat) :
    (rid ∈ w.repos → 1 ≤ k1.getD 10 →
      scopeOk w.conv sid (.singleRepo rid) →
      ∀ prompt, repoPrompt embed w.rows w.conv rid question (k1.getD 10)
          (some sid) true = .ok prompt →
        (∀ ans, complete prompt = .ok ans →
          sessionMsgs (ask_repo complete embed w rid question k1 (some sid)
              true).2 sid =
            sessionMsgs w.conv sid ++
              [⟨.user, question, (sessionMsgs w.conv sid).length⟩,
               ⟨.assistant, ans, (sessionMsgs w.conv sid).length + 1⟩]) ∧
        (∀ e, complete prompt = .error e →
          ask_repo complete embed w rid question k1 (some sid) true =
            (.error .completionProviderError, w.conv))) ∧
    (∀ members, alookup w.groups gid = some members → 1 ≤ k2.getD 5 →
      scopeOk w.conv sid (.group gid) →
      ∀ prompt, groupPrompt embed w.rows w.conv gid members question
          (k2.getD 5) (some sid) true = .ok prompt →
        (∀ ans, complete prompt = .ok ans →
          sessionMsgs (ask_repo_group complete embed w gid question k2
              (some sid) true).2 sid =
            sessionMsgs w.conv sid ++
              [⟨.user, question, (sessionMsgs w.conv sid).length⟩,
               ⟨.assistant, ans, (sessionMsgs w.conv sid).length + 1⟩]) ∧
        (∀ e, complete prompt = .error e →
          ask_repo_group complete embed w gid question k2 (some sid) true =
            (.error .completionProviderError, w.conv))) := by
  constructor
  · intro hr hk1 hsc1 prompt hprompt
    constructor
    · intro ans hans
      unfold ask_repo
      simp only [if_pos hr, if_pos hk1, hprompt]
      obtain ⟨st2, hcr, hmsgs⟩ := completeAndRecord_ok_linked complete w.conv
        (.singleRepo rid) sid question prompt ans hans hsc1
      rw [hcr]
      exact hmsgs
    · intro e he
      unfold ask_repo
      simp only [if_pos hr, if_pos hk1, hprompt]
      rw [completeAndRecord_err complete w.conv (.singleRepo rid) (some sid)
        true question prompt e he]
  · intro members hg hk2 hsc2 prompt hprompt
    constructor
    · intro ans hans
      unfold ask_repo_group
      rw [hg]
      simp only [if_pos hk2, hprompt]
      obtain ⟨st2, hcr, hmsgs⟩ := completeAndRecord_ok_linked complete w.conv
        (.group gid) sid question prompt ans hans hsc2
      rw [hcr]
      exact hmsgs
    · intro e he
      unfold ask_repo_group
      rw [hg]
      simp only [if_pos hk2, hprompt]
      rw [completeAndRecord_err complete w.conv (.group gid) (some sid)
        true question prompt e he]

/-- Conversation-store fixture: session "s" already bound to repository "r"
with two earlier turns. -/
def wConvR : ConvStore :=
  [("s", ⟨.singleRepo "r", [⟨.user, "q0", 0⟩, ⟨.assistant, "a0", 1⟩]⟩)]

/-- World fixture whose store already holds the single-repo session. -/
def wWorldC3 : World := ⟨["r"], [("g", ["r"])], [], wConvR⟩

/-- Conversation-store fixture: session "s" already bound to group "g" with
two earlier turns. -/
def wConvG : ConvStore :=
  [("s", ⟨.group "g", [⟨.user, "q0", 0⟩, ⟨.assistant, "a0", 1⟩]⟩)]

/-- World fixture whose store already holds the group session. -/
def wWorldC3g : World := ⟨["r"], [("g", ["r"])], [], wConvG⟩

theorem history_atomicity_witness :
    sessionMsgs (ask_repo wCompleteOk wEmbed wWorldC3 "r" "q" none (some "s")
        true).2 "s" =
      [⟨.user, "q0", 0⟩, ⟨.assistant, "a0", 1⟩, ⟨.user, "q", 2⟩,
       ⟨.assistant, "ans", 3⟩] ∧
    ask_repo wCompleteErr wEmbed wWorldC3 "r" "q" none (some "s") true =
      (.error .completionProviderError, wWorldC3.conv) ∧
    sessionMsgs (ask_repo_group wCompleteOk wEmbed wWorldC3g "g" "q" none
        (some "s") true).2 "s" =
      [⟨.user, "q0", 0⟩, ⟨.assistant, "a0", 1⟩, ⟨.user, "q", 2⟩,
       ⟨.assistant, "ans", 3⟩] ∧
    ask_repo_group wCompleteErr wEmbed wWorldC3g "g" "q" none (some "s")
      true = (.error .completionProviderError, wWorldC3g.conv) := by
  have hscR : scopeOk wWorldC3.conv "s" (.singleRepo "r") := by
    intro s hs
    have h2 : (⟨Scope.singleRepo "r",
        [⟨.user, "q0", 0⟩, ⟨.assistant, "a0", 1⟩]⟩ : Session) = s :=
      Option.some.inj hs
    rw [← h2]
  have hscG : scopeOk wWorldC3g.conv "s" (.group "g") := by
    intro s hs
    have h2 : (⟨Scope.group "g",
        [⟨.user, "q0", 0⟩, ⟨.assistant, "a0", 1⟩]⟩ : Session) = s :=
      Option.some.inj hs
    rw [← h2]
  have hokR := (history_atomicity wCompleteOk wEmbed wWorldC3 "q" "s" "r" "g"
    none none).1 (by decide) (by decide) hscR
    (renderPrompt (headerRepo "r") []
      (historyFor wWorldC3.conv (some "s") true) "q") rfl
  have herrR := (history_atomicity wCompleteErr wEmbed wWorldC3 "q" "s" "r"
    "g" none none).1 (by decide) (by decide) hscR
    (renderPrompt (headerRepo "r") []
      (historyFor wWorldC3.conv (some "s") true) "q") rfl
  have hokG := (history_atomicity wCompleteOk wEmbed wWorldC3g "q" "s" "r"
    "g" none none).2 ["r"] rfl (by decide) hscG
    (renderPrompt (headerGroup "g") []
      (historyFor wWorldC3g.conv (some "s") true) "q") rfl
  have herrG := (history_atomicity wCompleteErr wEmbed wWorldC3g "q" "s" "r"
    "g" none none).2 ["r"] rfl (by decide) hscG
    (renderPrompt (headerGroup "g") []
      (historyFor wWorldC3g.conv (some "s") true) "q") rfl
  exact ⟨hokR.1 "ans" rfl, herrR.2 () rfl, hokG.1 "ans" rfl,
    herrG.2 () rfl⟩

theorem ask_repo_ok_references {complete : String → Except Unit String}
    {embed : String → List ℚ} {w : World} {rid question : String}
    {k1 : Option Nat} {sid : Option String} {link : Bool} {a : RepoAnswer}
    (h : (ask_repo complete embed w rid question k1 sid link).1 = .ok a) :
    a.references = repoRefs w.rows (embed question) rid (k1.getD 10) := by
  unfold ask_repo at h
  by_cases h1 : rid ∈ w.repos
  · simp only [if_pos h1] at h
    by_cases h2 : 1 ≤ k1.getD 10
    · simp only [if_pos h2] at h
      cases hp : repoPrompt embed w.rows w.conv rid question (k1.getD 10)
        sid link with
      | error e =>
          simp only [hp] at h
          simp at h
      | ok prompt =>
          simp only [hp] at h
          cases hcr : completeAndRecord complete w.conv (.singleRepo rid)
            sid link question prompt with
          | mk fst snd =>
              rw [hcr] at h
              cases fst with
              | error e => simp at h
              | ok ans =>
                  simp only [Except.ok.injEq] at h
                  rw [← h]
    · simp only [if_neg h2] at h
      simp at h
  · simp only [if_neg h1] at h
    simp at h

theorem ask_group_ok_references {complete : String → Except Unit String}
    {embed : String → List ℚ} {w : World} {gid question : String}
    {members : List String} {k2 : Option Nat} {sid : Option String}
    {link : Bool} {g : GroupAnswer}
    (hg : alookup w.groups gid = some members)
    (h : (ask_repo_group complete embed w gid question k2 sid link).1 =
      .ok g) :
    g.references = groupRefs w.rows (embed question) members (k2.getD 5) := by
  unfold ask_repo_group at h
  rw [hg] at h
  by_cases h2 : 1 ≤ k2.getD 5
  · simp only [if_pos h2] at h
    cases hp : groupPrompt embed w.rows w.conv gid members question
      (k2.getD 5) sid link with
    | error e =>
        simp only [hp] at h
        simp at h
    | ok prompt =>
        simp only [hp] at h
        cases hcr : completeAndRecord complete w.conv (.group gid)
          sid link question prompt with
        | mk fst snd =>
            rw [hcr] at h
            cases fst with
            | error e => simp at h
            | ok ans =>
                simp only [Except.ok.injEq] at h
                rw [← h]
  · simp only [if_neg h2] at h
    simp at h

theorem mem_retrieveRowsGroup {rows : List Row} {members : List String}
    {q : List ℚ} {k : Nat} {x : Row}
    (hx : x ∈ retrieveRowsGroup rows members q k) : x ∈ rows := by
  rw [retrieveRowsGroup] at hx
  have hx2 := (List.perm_insertionSort (rowLE q) _).subset hx
  obtain ⟨l, hl, hxl⟩ := List.mem_flatten.mp hx2
  obtain ⟨rid, _, rfl⟩ := List.mem_map.mp hl
  exact (mem_candidates.mp (mem_retrieveRows hxl)).1

/-- C7: every reference record returned by a single-repo or a group query
carries all five fields — repository identifier, file path, start line, end
line, similarity score — populated from a stored embedding row. -/
theorem references_have_all_fields (complete : String → Except Unit String)
    (embed : String → List ℚ) (w : World) (rid gid question : String)
    (k1 k2 : Option Nat) (sid : Option String) (link : Bool)
    (members : List String) (a : RepoAnswer) (g : GroupAnswer)
    (hg : alookup w.groups gid = some members) :
    ((ask_repo complete embed w rid question k1 sid link).1 = .ok a →
      ∀ ref ∈ a.references, ∃ row, row ∈ w.rows ∧
        ref.repo_id = row.repo_id ∧ ref.file_path = row.file_path ∧
        ref.start_line = row.start_line ∧ ref.end_line = row.end_line ∧
        ref.score = simKey (embed question) row.vec) ∧
    ((ask_repo_group complete embed w gid question k2 sid link).1 = .ok g →
      ∀ ref ∈ g.references, ∃ row, row ∈ w.rows ∧
        ref.repo_id = row.repo_id ∧ ref.file_path = row.file_path ∧
        ref.start_line = row.start_line ∧ ref.end_line = row.end_line ∧
        ref.score = simKey (embed question) row.vec) := by
  constructor
  · intro h ref href
    rw [ask_repo_ok_references h] at href
    obtain ⟨row, hrow, rfl⟩ := List.mem_map.mp href
    exact ⟨row, (mem_candidates.mp (mem_retrieveRows hrow)).1, rfl, rfl, rfl,
      rfl, rfl⟩
  · intro h ref href
    rw [ask_group_ok_references hg h] at href
    obtain ⟨row, hrow, rfl⟩ := List.mem_map.mp href
    exact ⟨row, mem_retrieveRowsGroup hrow, rfl, rfl, rfl, rfl, rfl⟩

/-- World fixture holding one embedding row for repository "r". -/
def wWorldR : World := ⟨["r"], [("g", ["r"])], [wRow1], []⟩

theorem references_have_all_fields_witness :
    alookup wWorldR.groups "g" = some ["r"] ∧
    (∃ row, row ∈ wWorldR.rows ∧
      (toRef (wEmbed "q") wRow1).repo_id = row.repo_id ∧
      (toRef (wEmbed "q") wRow1).file_path = row.file_path ∧
      (toRef (wEmbed "q") wRow1).start_line = row.start_line ∧
      (toRef (wEmbed "q") wRow1).end_line = row.end_line ∧
      (toRef (wEmbed "q") wRow1).score = simKey (wEmbed "q") row.vec) := by
  have hc : candidates wWorldR.rows ["r"] = [wRow1] := by
    norm_num [candidates, wWorldR, wRow1, normSq, dot, List.filter]
  have hretr : retrieveRows wWorldR.rows ["r"] (wEmbed "q") 10 = [wRow1] := by
    rw [retrieveRows, rankRows, hc]
    simp
  have hrefs : repoRefs wWorldR.rows (wEmbed "q") "r" 10 =
      [toRef (wEmbed "q") wRow1] := by
    rw [repoRefs, hretr]
    rfl
  have hprompt : repoPrompt wEmbed wWorldR.rows wWorldR.conv "r" "q" 10 none
      true = .ok (renderPrompt (headerRepo "r") [wRow1] [] "q") := by
    unfold repoPrompt
    rw [hretr]
    rfl
  have h : (ask_repo wCompleteOk wEmbed wWorldR "r" "q" none none true).1 =
      .ok ⟨"r", "q", "ans", [toRef (wEmbed "q") wRow1], none, true⟩ := by
    unfold ask_repo
    simp only [Option.getD_none,
      if_pos (show "r" ∈ wWorldR.repos by decide),
      if_pos (show (1 : Nat) ≤ 10 by decide), hprompt]
    rw [completeAndRecord_ok_nosid wCompleteOk wWorldR.conv
      (.singleRepo "r") true "q" _ "ans" rfl]
    simp [hrefs]
  refine ⟨rfl, ?_⟩
  exact (references_have_all_fields wCompleteOk wEmbed wWorldR "r" "g" "q"
    none none none true ["r"]
    ⟨"r", "q", "ans", [toRef (wEmbed "q") wRow1], none, true⟩
    ⟨"g", "q", "ans", [], none, true⟩ rfl).1 h
    (toRef (wEmbed "q") wRow1) (List.mem_singleton.mpr rfl)

theorem parseOwner_eval_none {p : String → Option String} {url : String}
    (h : p url = none) : parseOwnerFromGitUrl p url = "unknown" := by
  unfold parseOwnerFromGitUrl
  rw [h]

theorem parseOwner_eval_some {p : String → Option String}
    {url path : String} (h : p url = some path) :
    parseOwnerFromGitUrl p url = jsOrDefault (firstSegment path) "unknown" := by
  unfold parseOwnerFromGitUrl
  rw [h]

/-- C10: `parseOwnerFromGitUrl` is total and never throws: for every input
it returns the first path segment of the parsed URL's pathname when the URL
parses (the platform parser being abstracted as `p`) and that segment is
non-empty, and the string "unknown" in every other case; its result is
always a non-empty string. -/
theorem parseOwner_total_nonempty (p : String → Option String)
    (url : String) :
    (p url = none → parseOwnerFromGitUrl p url = "unknown") ∧
    (∀ path, p url = some path →
      (firstSegment path = "" → parseOwnerFromGitUrl p url = "unknown") ∧
      (firstSegment path ≠ "" →
        parseOwnerFromGitUrl p url = firstSegment path)) ∧
    parseOwnerFromGitUrl p url ≠ "" := by
  refine ⟨fun h => parseOwner_eval_none h, ?_, ?_⟩
  · intro path h
    rw [parseOwner_eval_some h]
    unfold jsOrDefault
    constructor
    · intro he
      rw [if_pos he]
    · intro hne
      rw [if_neg hne]
  · cases hp : p url with
    | none =>
        rw [parseOwner_eval_none hp]
        decide
    | some path =>
        rw [parseOwner_eval_some hp]
        unfold jsOrDefault
        by_cases he : firstSegment path = ""
        · rw [if_pos he]
          decide
        · rw [if_neg he]
          exact he

/-- Platform URL-parser fixture: parses exactly one GitHub-style URL. -/
def wParse : String → Option String := fun s =>
  if s = "https://github.com/owner/repo" then some "/owner/repo" else none

theorem parseOwner_total_nonempty_witness :
    parseOwnerFromGitUrl wParse "https://github.com/owner/repo" = "owner" ∧
    parseOwnerFromGitUrl wParse "not a url" = "unknown" ∧
    parseOwnerFromGitUrl wParse "https://github.com/owner/repo" ≠ "" := by
  have h1 := (parseOwner_total_nonempty wParse
    "https://github.com/owner/repo").2.1 "/owner/repo" (by decide)
  have h2 := (parseOwner_total_nonempty wParse "not a url").1 (by decide)
  have h3 := (parseOwner_total_nonempty wParse
    "https://github.com/owner/repo").2.2
  have hseg : firstSegment "/owner/repo" = "owner" := by decide
  exact ⟨by rw [h1.2 (by decide), hseg], h2, h3⟩

end YogSothoth
